import Mathlib

/-!
Verification of the field/container data model of the kitty protocol-fuzzing
template engine.  The repository ships only the unit tests of this model
(`unit_tests/model_low_level_fields.py`); the model itself
(`kitty/model/low_level`) is absent, so every definition below is modelled
from the specification (and pinned, where the tests speak, to the behaviour
the tests assert).
-/

namespace Kitty

/-- Modelled from the spec: rendered output of a node is a bit string. -/
abbrev BitStr := List Bool

/-- Modelled from the spec: a byte (0..255) turned into its 8 bits, most
significant bit first. -/
def byteToBits (b : Nat) : BitStr :=
  (List.range 8).map (fun i => (b / 2 ^ (7 - i)) % 2 = 1)

/-- Modelled from the spec: a byte sequence rendered to a bit string. -/
def bytesToBits (bs : List Nat) : BitStr :=
  (bs.map byteToBits).flatten

/-- Modelled from the spec: a natural number encoded as a fixed-width
big-endian bit string (two's-complement integers reduce to this after
taking the value modulo 2 ^ width). -/
def toBitsBE (width value : Nat) : BitStr :=
  (List.range width).map (fun i => (value / 2 ^ (width - 1 - i)) % 2 = 1)

/-- Modelled from the spec: the deterministic pseudo-random generator used by
randomized leaves; a plain linear congruential step, reproducible from the
seed. -/
def lcg (s : Nat) : Nat :=
  (1103515245 * s + 12345) % 2147483648

/-- Modelled from the spec: pseudo-random bit `i` of the stream seeded by
`seed`, reproducible given the same seed. -/
def prandBit (seed i : Nat) : Bool :=
  lcg (lcg seed + i) % 2 = 1

/-- Modelled from the spec: a reproducible pseudo-random bit string of the
requested length drawn from the stream seeded by `seed` at offset `off`. -/
def prandBits (seed off len : Nat) : BitStr :=
  (List.range len).map (fun i => prandBit seed (off + i))

/-- Modelled from the spec: the static, configuration-derived part of a leaf
field — its default render, its finite ordered mutation domain (the
catalogue of alternate renderings) and its fuzzability flag. -/
structure Field where
  defaultValue : BitStr
  catalogue : List BitStr
  fuzzable : Bool
deriving DecidableEq, Repr

/-- Modelled from the spec: a leaf instance is its static configuration plus
the mutation cursor; cursor `0` is the pre-mutation default state and cursor
`k > 0` means the `k`-th mutation is the current one. -/
structure FieldInst where
  field : Field
  cursor : Nat
deriving DecidableEq, Repr

/-- Modelled from the spec: a freshly constructed instance, before any
mutation. -/
def Field.fresh (f : Field) : FieldInst := ⟨f, 0⟩

/-- Modelled from the spec: `num_mutations()` — a fixed, config-derived
integer; a non-fuzzable node contributes zero mutations. -/
def FieldInst.numMutations (s : FieldInst) : Nat :=
  if s.field.fuzzable then s.field.catalogue.length else 0

/-- Modelled from the spec: `mutate()` — advance through the precomputed
sequence, returning false once exhausted (and keep returning false until
`reset()`). -/
def FieldInst.mutate (s : FieldInst) : Bool × FieldInst :=
  if s.cursor < s.numMutations then (true, ⟨s.field, s.cursor + 1⟩) else (false, s)

/-- Modelled from the spec: `render()` — the default value in the
pre-mutation state, else the catalogue entry the cursor points at. -/
def FieldInst.render (s : FieldInst) : BitStr :=
  if s.cursor = 0 then s.field.defaultValue
  else s.field.catalogue.getD (s.cursor - 1) s.field.defaultValue

/-- Modelled from the spec: `reset()` — return to the pre-mutation default
state without losing static identity. -/
def FieldInst.reset (s : FieldInst) : FieldInst := ⟨s.field, 0⟩

/-- Modelled from the spec: `skip(n)` — advance the logical cursor by `n`
steps without rendering and report how many steps were actually available. -/
def FieldInst.skip (s : FieldInst) (n : Nat) : Nat × FieldInst :=
  let d := min n (s.numMutations - s.cursor)
  (d, ⟨s.field, s.cursor + d⟩)

/-- Fuel-indexed mutate-until-false loop collecting the render after each
successful `mutate()`. -/
def drainAux : Nat → FieldInst → List BitStr × FieldInst
  | 0, s => ([], s)
  | fuel + 1, s =>
    let m := s.mutate
    if m.1 then
      let rest := drainAux fuel m.2
      (m.2.render :: rest.1, rest.2)
    else ([], s)

/-- Modelled from the tests: `_get_all_mutations` — repeatedly call
`mutate()` until it first returns false, collecting the rendered output after
each successful call. -/
def FieldInst.drain (s : FieldInst) : List BitStr × FieldInst :=
  drainAux (s.numMutations + 1) s

/-- Modelled from the spec: configuration errors raised synchronously at
construction. -/
structure KittyException where
  msg : String
deriving DecidableEq, Repr

/-- Modelled from the spec: a case-variant transform on one byte. -/
def swapCaseByte (b : Nat) : Nat :=
  if 65 ≤ b ∧ b ≤ 90 then b + 32
  else if 97 ≤ b ∧ b ≤ 122 then b - 32
  else b

/-- Modelled from the spec: the deterministic catalogue of string-mutation
strategies (case variants, truncations, overlong repeats, boundary-length
values, encoding edge cases); the spec leaves the exact catalogue
product-specific and requires only determinism, exact count and
distinctness. -/
def rawStringMutations (v : List Nat) : List (List Nat) :=
  [v.map swapCaseByte] ++
  (List.range v.length).map (fun k => v.take k) ++
  [v ++ v, v ++ v ++ v ++ v, List.replicate 100 65, List.replicate 500 66, [0], [255],
    v ++ [0], [10, 13], []]

/-- Modelled from the spec: the rendered string catalogue, duplicate-free,
and filtered (entries skipped entirely, not clipped) by the optional
`max_size` in bytes. -/
def stringCatalogue (v : List Nat) (maxSize : Option Nat) : List BitStr :=
  let base := ((rawStringMutations v).map bytesToBits).dedup
  match maxSize with
  | none => base
  | some m => base.filter (fun bs => bs.length ≤ 8 * m)

/-- Modelled from the spec: the String leaf — default byte value, optional
`max_size`, catalogue of string-mutation strategies. -/
def mkString (v : List Nat) (maxSize : Option Nat) (fz : Bool) : Field :=
  ⟨bytesToBits v, stringCatalogue v maxSize, fz⟩

/-- Modelled from the spec: Delimiter specializes the same engine as String
with no additional mutation-domain constraint. -/
def mkDelimiter (v : List Nat) (maxSize : Option Nat) (fz : Bool) : Field :=
  ⟨bytesToBits v, stringCatalogue v maxSize, fz⟩

/-- Modelled from the spec: the mutation domain of a fuzzable SessionField
(Dynamic); the spec leaves the domain product-specific, so single-bit
variants of the default value, duplicate-free, are used. -/
def dynamicCatalogue (v : List Nat) : List BitStr :=
  let base := bytesToBits v
  ((List.range base.length).map (fun i => base.set i (!(base.getD i false)))).dedup

/-- Modelled from the spec: the mutation-domain face of a Dynamic leaf (its
session-data behaviour is modelled separately by `DynField`). -/
def mkDynamicLeaf (key : String) (v : List Nat) (fz : Bool) : Field :=
  ⟨bytesToBits v, dynamicCatalogue v, fz⟩

/-- Modelled from the spec: the EnumeratedField (Group) — ordered candidate
list, first candidate is the default render, mutation sequence visits every
candidate in list order. -/
def mkGroup (values : List (List Nat)) (fz : Bool) : Field :=
  ⟨bytesToBits (values.headD []), values.map bytesToBits, fz⟩

/-- Modelled from the spec: lower representable bound for a BitValue of the
given width and signedness. -/
def intRangeLo (length : Nat) (signed : Bool) : Int :=
  if signed then -(2 ^ (length - 1)) else 0

/-- Modelled from the spec: upper representable bound for a BitValue of the
given width and signedness. -/
def intRangeHi (length : Nat) (signed : Bool) : Int :=
  if signed then 2 ^ (length - 1) - 1 else 2 ^ length - 1

/-- Modelled from the spec: the deterministic ordered sequence of
interesting values for the given width and signedness (boundary values,
powers-of-two neighborhoods); product-specific by the spec. -/
def interestingInts (length : Nat) (signed : Bool) : List Int :=
  let lo := intRangeLo length signed
  let hi := intRangeHi length signed
  [0, 1, 2, 3, lo, lo + 1, hi, hi - 1, hi / 2, hi / 2 + 1, -1,
    2 ^ (length / 2), 2 ^ (length / 2) - 1, 2 ^ (length / 2) + 1]

/-- Modelled from the spec: a two's-complement encoding of an integer at a
fixed bit width. -/
def encodeInt (length : Nat) (v : Int) : BitStr :=
  toBitsBE length (v.emod (2 ^ length)).toNat

/-- Modelled from the spec: the BitValue catalogue — interesting values
filtered to the representable range and to the closed bound range when
bounds are supplied, rendered at the fixed width, duplicate-free. -/
def bitFieldCatalogue (length : Nat) (signed : Bool) (minV maxV : Option Int) : List BitStr :=
  let inBounds : Int → Bool := fun v =>
    decide (intRangeLo length signed ≤ v) && decide (v ≤ intRangeHi length signed) &&
    (match minV with | none => true | some m => decide (m ≤ v)) &&
    (match maxV with | none => true | some m => decide (v ≤ m))
  (((interestingInts length signed).filter inBounds).map (encodeInt length)).dedup

/-- True when the optional bound is present and strictly above the value. -/
def someAbove (bound : Option Int) (v : Int) : Bool :=
  match bound with
  | none => false
  | some m => decide (v < m)

/-- True when the optional bound is present and strictly below the value. -/
def someBelow (bound : Option Int) (v : Int) : Bool :=
  match bound with
  | none => false
  | some m => decide (m < v)

/-- Modelled from the spec: BitValue construction — fails with a
configuration error for non-positive length, for a value not representable
in the width, or for a value outside the supplied bounds. -/
def mkBitField (value : Int) (length : Nat) (signed : Bool) (minV maxV : Option Int)
    (fz : Bool) : Except KittyException Field :=
  if length = 0 then .error ⟨"length must be positive"⟩
  else if value < intRangeLo length signed ∨ intRangeHi length signed < value then
    .error ⟨"value not representable in length"⟩
  else if someAbove minV value then .error ⟨"value below min_value"⟩
  else if someBelow maxV value then .error ⟨"value above max_value"⟩
  else if someBelow (some (intRangeHi length signed)) (maxV.getD value) then
    .error ⟨"max_value not representable in length"⟩
  else if someAbove (some (intRangeLo length signed)) (minV.getD value) then
    .error ⟨"min_value not representable in length"⟩
  else .ok ⟨encodeInt length value, bitFieldCatalogue length signed minV maxV, fz⟩

/-- Modelled from the spec: the sized unsigned integer variants. -/
def mkUInt8 (v : Int) (fz : Bool) : Except KittyException Field :=
  mkBitField v 8 false none none fz

/-- Modelled from the spec: the sized unsigned integer variants. -/
def mkUInt16 (v : Int) (fz : Bool) : Except KittyException Field :=
  mkBitField v 16 false none none fz

/-- Modelled from the spec: the sized unsigned integer variants. -/
def mkUInt32 (v : Int) (fz : Bool) : Except KittyException Field :=
  mkBitField v 32 false none none fz

/-- Modelled from the spec: the sized unsigned integer variants. -/
def mkUInt64 (v : Int) (fz : Bool) : Except KittyException Field :=
  mkBitField v 64 false none none fz

/-- Modelled from the spec: the sized signed integer variants. -/
def mkSInt8 (v : Int) (fz : Bool) : Except KittyException Field :=
  mkBitField v 8 true none none fz

/-- Modelled from the spec: the sized signed integer variants. -/
def mkSInt16 (v : Int) (fz : Bool) : Except KittyException Field :=
  mkBitField v 16 true none none fz

/-- Modelled from the spec: the sized signed integer variants. -/
def mkSInt32 (v : Int) (fz : Bool) : Except KittyException Field :=
  mkBitField v 32 true none none fz

/-- Modelled from the spec: the sized signed integer variants. -/
def mkSInt64 (v : Int) (fz : Bool) : Except KittyException Field :=
  mkBitField v 64 true none none fz

/-- Modelled from the spec: the default mutation budget of an unstepped
RandomSpanField when no explicit `num_mutations` is supplied (the spec
leaves the exact budget unspecified). -/
def defaultRandomMutationCount : Nat := 10

/-- Modelled from the spec: a pseudo-random length within the inclusive
range, reproducible from the seed. -/
def prandLen (seed i minL maxL : Nat) : Nat :=
  minL + lcg (seed + 7 * i) % (maxL - minL + 1)

/-- Modelled from the spec: the RandomSpanField mutation catalogue.  In
stepped mode the length starts at `min_length` and increases by `step`, with
count `(max_length - min_length) / step`; in unstepped mode the explicit
count (or the default budget) is honored and each length is pseudo-random
within the range.  `unit` is 1 for RandomBits and 8 for RandomBytes. -/
def randomSpanCatalogue (unit seed minL maxL : Nat) (step : Option Nat)
    (numMut : Option Nat) : List BitStr :=
  match step with
  | some st =>
    (List.range ((maxL - minL) / st)).map (fun i => prandBits seed (i * 17) (unit * (minL + i * st)))
  | none =>
    let n := numMut.getD defaultRandomMutationCount
    (List.range n).map (fun i => prandBits seed (i * 17) (unit * prandLen seed i minL maxL))

/-- Modelled from the spec: RandomSpanField construction — fails with a
configuration error when `min_length < 0`, `max_length < 0`,
`max_length == 0`, `min_length > max_length`, or a provided step is
negative; succeeds otherwise.  The default render is the default value,
with the trailing `unusedBits` dropped for the bit variant. -/
def mkRandomSpan (unit : Nat) (v : List Nat) (minL maxL : Int) (step : Option Int)
    (numMut : Option Nat) (seed : Nat) (unusedBits : Nat) (fz : Bool) :
    Except KittyException Field :=
  if minL < 0 then .error ⟨"min_length is negative"⟩
  else if maxL < 0 then .error ⟨"max_length is negative"⟩
  else if maxL = 0 then .error ⟨"max_length is zero"⟩
  else if maxL < minL then .error ⟨"min_length bigger than max_length"⟩
  else if (match step with | none => false | some s => decide (s < 0)) then
    .error ⟨"step is negative"⟩
  else
    let base := bytesToBits v
    .ok ⟨base.take (base.length - unusedBits),
      randomSpanCatalogue unit seed minL.toNat maxL.toNat (step.map Int.toNat) numMut, fz⟩

/-- Modelled from the spec: RandomBits — lengths measured in bits, with an
optional trailing unused-bit count reducing the default render width. -/
def mkRandomBits (v : List Nat) (minL maxL : Int) (step : Option Int) (numMut : Option Nat)
    (seed : Nat) (unusedBits : Nat) (fz : Bool) : Except KittyException Field :=
  mkRandomSpan 1 v minL maxL step numMut seed unusedBits fz

/-- Modelled from the spec: RandomBytes — lengths measured in bytes. -/
def mkRandomBytes (v : List Nat) (minL maxL : Int) (step : Option Int) (numMut : Option Nat)
    (seed : Nat) (fz : Bool) : Except KittyException Field :=
  mkRandomSpan 8 v minL maxL step numMut seed 0 fz

/-- Modelled from the spec: the static configuration of a SessionField
(Dynamic) — a lookup key and a default byte value. -/
structure DynField where
  key : String
  defaultValue : List Nat
  fuzzable : Bool
deriving DecidableEq, Repr

/-- Modelled from the spec: the mutable state of a SessionField — the
externally installed override for its key (when any) and the mutation
cursor. -/
structure DynState where
  override : Option (List Nat)
  cursor : Nat
deriving DecidableEq, Repr

/-- Modelled from the spec: the pre-mutation state of a SessionField, with
no session data installed. -/
def DynField.freshDyn (_f : DynField) : DynState := ⟨none, 0⟩

/-- Modelled from the spec: lookup of a key in an installed session-data
mapping. -/
def dynLookup (key : String) (m : List (String × List Nat)) : Option (List Nat) :=
  (m.find? (fun p => p.1 == key)).map Prod.snd

/-- Modelled from the tests: the set-session-data operation — when the
installed mapping contains the field key, that value becomes the current
override; a mapping without the key leaves the state unchanged. -/
def setSessionData (f : DynField) (s : DynState) (m : List (String × List Nat)) : DynState :=
  match dynLookup f.key m with
  | some v => ⟨some v, s.cursor⟩
  | none => s

/-- Modelled from the spec: SessionField render — the installed session
value for the key takes precedence over the currently-mutated value;
otherwise the field renders like a plain leaf with its mutation cursor. -/
def dynRender (f : DynField) (s : DynState) : BitStr :=
  match s.override with
  | some v => bytesToBits v
  | none => FieldInst.render ⟨mkDynamicLeaf f.key f.defaultValue f.fuzzable, s.cursor⟩

/-- Modelled from the spec: SessionField reset — discards the installed
session mapping and the mutation state, reverting to the default value. -/
def dynReset (_f : DynField) (_s : DynState) : DynState := ⟨none, 0⟩

/-- Modelled from the spec: the transform tag carried by a calculated
(Reference) field. -/
inductive CalcKind
  | cloneK
  | sizeK
  | sizeInBytesK
  | elementCountK
  | indexOfK
  | md5K
  | sha1K
  | sha224K
  | sha256K
  | sha384K
  | sha512K
deriving DecidableEq, Repr

/-- Modelled from the spec: the algorithm-fixed digest size in bits of each
hash variant (zero for the non-hash transforms, which use the configured
length instead). -/
def digestLenBits : CalcKind → Nat
  | .md5K => 128
  | .sha1K => 160
  | .sha224K => 224
  | .sha256K => 256
  | .sha384K => 384
  | .sha512K => 512
  | _ => 0

/-- Numeric tag distinguishing the transforms. -/
def kindTag : CalcKind → Nat
  | .cloneK => 0
  | .sizeK => 1
  | .sizeInBytesK => 2
  | .elementCountK => 3
  | .indexOfK => 4
  | .md5K => 5
  | .sha1K => 6
  | .sha224K => 7
  | .sha256K => 8
  | .sha384K => 9
  | .sha512K => 10

/-- Modelled from the spec: a stand-in for the named cryptographic digest of
a bit string — a deterministic keyed mixing fold with the algorithm-fixed
output size.  Only determinism and the fixed size matter for the claims
about calculated fields; the real algorithms live outside this
repository. -/
def digestBits (k : CalcKind) (bs : BitStr) : BitStr :=
  let mixed := bs.foldl
    (fun acc b => (acc * 131 + (if b then 1 else 0) + kindTag k) % 2 ^ 512)
    (kindTag k + 1)
  toBitsBE (digestLenBits k) mixed

/-- Modelled from the spec: the node tree — value leaves carrying their
static configuration and mutation cursor, calculated (Reference) fields
carrying a transform tag, a target name and an output length in bits, and
composites carrying an ordered child list.  Every node has an optional
name. -/
inductive FNode
  | value : Option String → Field → Nat → FNode
  | calcNode : Option String → CalcKind → String → Nat → FNode
  | comp : Option String → List FNode → FNode

/-- Name of a node, when it has one. -/
def nodeName : FNode → Option String
  | .value nm _ _ => nm
  | .calcNode nm _ _ _ => nm
  | .comp nm _ => nm

mutual

/-- Modelled from the spec: resolution of a target name — a depth-first
search over the whole subtree reachable from the given root, returning the
first node carrying the name. -/
def findByName (t : String) : FNode → Option FNode
  | .value nm f c => if nm = some t then some (.value nm f c) else none
  | .calcNode nm k tn len => if nm = some t then some (.calcNode nm k tn len) else none
  | .comp nm cs => if nm = some t then some (.comp nm cs) else findInList t cs

/-- Depth-first name search over a child list. -/
def findInList (t : String) : List FNode → Option FNode
  | [] => none
  | c :: rest =>
    match findByName t c with
    | some r => some r
    | none => findInList t rest

end

mutual

/-- Modelled from the spec: the composite that directly contains a child
named `t` — the enclosing composite of the resolution target, found by
depth-first search from the root. -/
def findEnclosing (t : String) : FNode → Option FNode
  | .value _ _ _ => none
  | .calcNode _ _ _ _ => none
  | .comp nm cs =>
    if cs.any (fun c => nodeName c == some t) then some (.comp nm cs)
    else findEnclosingIn t cs

/-- Depth-first enclosing-composite search over a child list. -/
def findEnclosingIn (t : String) : List FNode → Option FNode
  | [] => none
  | c :: rest =>
    match findEnclosing t c with
    | some r => some r
    | none => findEnclosingIn t rest

end

/-- Position of the first node carrying the target name in a list, or the
list length when absent — the "would-be append position" sentinel used by
IndexOf (resolution is name-based, so the target is the node carrying the
name). -/
def posOfName (t : String) : List FNode → Nat
  | [] => 0
  | c :: rest => if nodeName c = some t then 0 else posOfName t rest + 1

/-- Modelled from the spec: the render and rendered-fields evaluation of
the tree, by recursion on a resolution-depth fuel.  `render()`: a value
leaf renders from its own state; a composite concatenates its children's
renders in declaration order; a calculated field resolves its target name
against the root on every render and derives its value from the target's
current render (an unresolvable target renders empty, standing for the
render-time resolution error; exhausted fuel also renders empty).  The
rendered-fields query: for a composite, each immediate child is included as
a single opaque unit exactly when it itself renders to something (a nested
composite when its own rendered-fields query is non-empty, a leaf or
calculated field when its rendered bit length is non-zero); a leaf queried
directly yields itself exactly when its current render is non-empty. -/
def evalNode : Nat → FNode → FNode → BitStr × List FNode
  | 0, _, _ => ([], [])
  | fuel + 1, root, n =>
    match n with
    | .value nm f c =>
      let r := FieldInst.render ⟨f, c⟩
      (r, if r.length ≠ 0 then [.value nm f c] else [])
    | .calcNode nm k t len =>
      let r :=
        match findByName t root with
        | none => []
        | some tgt =>
          match k with
          | .cloneK => (evalNode fuel root tgt).1
          | .sizeK => toBitsBE len ((evalNode fuel root tgt).1.length / 8)
          | .sizeInBytesK => toBitsBE len ((evalNode fuel root tgt).1.length / 8)
          | .elementCountK => toBitsBE len (evalNode fuel root tgt).2.length
          | .indexOfK =>
            match findEnclosing t root with
            | none => toBitsBE len 0
            | some parent => toBitsBE len (posOfName t (evalNode fuel root parent).2)
          | hk => digestBits hk (evalNode fuel root tgt).1
      (r, if r.length ≠ 0 then [.calcNode nm k t len] else [])
    | .comp _ cs =>
      ((cs.map (fun c => (evalNode fuel root c).1)).flatten,
        cs.filter (fun c => !(evalNode fuel root c).2.isEmpty))

/-- Modelled from the spec: `render()` — the first component of the tree
evaluation. -/
def renderNode (fuel : Nat) (root n : FNode) : BitStr :=
  (evalNode fuel root n).1

/-- Modelled from the spec: the rendered-fields query — the second
component of the tree evaluation. -/
def renderedFields (fuel : Nat) (root n : FNode) : List FNode :=
  (evalNode fuel root n).2

mutual

/-- Modelled from the spec: `mutate()` on the tree — a single logical
cursor advances depth-first across the fuzzable leaves: the first child
whose own mutate succeeds is advanced and all other descendants keep their
current state; calculated fields contribute zero mutations; the call
returns false only once every fuzzable leaf is exhausted. -/
def mutateNode : FNode → Bool × FNode
  | .value nm f c =>
    let m := FieldInst.mutate ⟨f, c⟩
    (m.1, .value nm f m.2.cursor)
  | .calcNode nm k t len => (false, .calcNode nm k t len)
  | .comp nm cs =>
    let m := mutateList cs
    (m.1, .comp nm m.2)

/-- Depth-first mutation over a child list: the first child that still has
mutations advances; the rest are untouched. -/
def mutateList : List FNode → Bool × List FNode
  | [] => (false, [])
  | c :: rest =>
    let m := mutateNode c
    if m.1 then (true, m.2 :: rest)
    else
      let mr := mutateList rest
      (mr.1, c :: mr.2)

end

mutual

/-- Modelled from the spec: `reset()` — recursively returns every
descendant to the pre-mutation default state. -/
def resetNode : FNode → FNode
  | .value nm f _ => .value nm f 0
  | .calcNode nm k t len => .calcNode nm k t len
  | .comp nm cs => .comp nm (resetList cs)

/-- Recursive reset of a child list. -/
def resetList : List FNode → List FNode
  | [] => []
  | c :: rest => resetNode c :: resetList rest

end

mutual

/-- Modelled from the spec: `num_mutations()` of a node — a leaf's own
fixed count, zero for calculated fields, and the sum over all fuzzable
descendants for a composite. -/
def numMutationsNode : FNode → Nat
  | .value _ f c => FieldInst.numMutations ⟨f, c⟩
  | .calcNode _ _ _ _ => 0
  | .comp _ cs => numMutationsList cs

/-- Sum of the mutation counts of a child list. -/
def numMutationsList : List FNode → Nat
  | [] => 0
  | c :: rest => numMutationsNode c + numMutationsList rest

end

/-- Modelled from the spec: an operation of the shared capability set that
can change a node instance in place (`render()` is pure and is therefore
not represented: it returns bits and leaves the node unchanged). -/
inductive FOp
  | mutateOp
  | resetOp
  | skipOp : Nat → FOp

/-- Modelled from the spec: `skip(n)` on a node — advance the logical
cursor up to `n` steps without rendering. -/
def skipNode : Nat → FNode → FNode
  | 0, n => n
  | k + 1, n =>
    let m := mutateNode n
    if m.1 then skipNode k m.2 else n

/-- Apply one state-changing operation to a node. -/
def applyOp : FOp → FNode → FNode
  | .mutateOp, n => (mutateNode n).2
  | .resetOp, n => resetNode n
  | .skipOp k, n => skipNode k n

/-- Apply a sequence of state-changing operations to a node. -/
def applyOps (ops : List FOp) (n : FNode) : FNode :=
  ops.foldl (fun acc op => applyOp op acc) n

/-- Deterministic fold of a string into a number, for the identity hash. -/
def hashStringK (s : String) : Nat :=
  s.toList.foldl (fun a c => a * 257 + c.toNat) 7

/-- Deterministic fold of an optional name into a number. -/
def hashOptName : Option String → Nat
  | none => 3
  | some s => 5 + hashStringK s

/-- Deterministic fold of a bit string into a number. -/
def hashBitsK (bs : BitStr) : Nat :=
  bs.foldl (fun a b => a * 2 + (if b then 1 else 0) + 1) 11

/-- Deterministic fold of a mutation catalogue into a number. -/
def hashCatK (cs : List BitStr) : Nat :=
  cs.foldl (fun a bs => a * 1000003 + hashBitsK bs) 13

mutual

/-- Modelled from the spec: the stable identity hash — a structural
fingerprint of the static configuration (variant, name, default, catalogue,
fuzzability, transform tag, target name, children), visibly independent of
the mutation cursor. -/
def identityHash : FNode → Nat
  | .value nm f _ =>
    17 + 31 * hashOptName nm + 37 * hashBitsK f.defaultValue +
      41 * hashCatK f.catalogue + (if f.fuzzable then 43 else 0)
  | .calcNode nm k t len =>
    19 + 31 * hashOptName nm + 53 * kindTag k + 59 * hashStringK t + 61 * len
  | .comp nm cs => 23 + 31 * hashOptName nm + 67 * identityHashList cs

/-- Combined identity hash of a child list. -/
def identityHashList : List FNode → Nat
  | [] => 29
  | c :: rest => identityHash c * 1000003 + identityHashList rest

end

/-- Modelled from the spec: a node with every mutation cursor erased — two
nodes with the same erasure are two instances built from identical
construction parameters. -/
def eraseState : FNode → FNode := resetNode

/-- True when construction succeeded. -/
def isOkE (e : Except KittyException Field) : Bool :=
  match e with
  | .ok _ => true
  | .error _ => false

/-- The constructed field of a successful construction (a dummy inert field
for a failed one; used only to name concrete instances in closed
statements). -/
def okField (e : Except KittyException Field) : Field :=
  match e with
  | .ok f => f
  | .error _ => ⟨[], [], false⟩

/-- Modelled from the tests: the full-sweep contract of a leaf — draining a
fresh instance yields exactly `num_mutations()` rendered outputs, the
outputs are pairwise distinct, and draining again after `reset()` of the
exhausted instance reproduces the identical pair of output list and end
state (a second instance built from identical construction parameters is
the identical `Field` value, so it trivially produces the same byte
sequence). -/
def sweepProps (f : Field) : Prop :=
  f.fresh.drain.1.length = f.fresh.numMutations ∧
  f.fresh.drain.1.Nodup ∧
  f.fresh.drain.2.reset.drain = f.fresh.drain

/-- The fuzzable leaves named by the specification, as stated: every image
of a leaf constructor with the fuzzable flag set. -/
def IsFuzzableLeaf (f : Field) : Prop :=
  (∃ v ms, f = mkString v ms true) ∨
  (∃ v ms, f = mkDelimiter v ms true) ∨
  (∃ key v, f = mkDynamicLeaf key v true) ∨
  (∃ vs, vs ≠ [] ∧ f = mkGroup vs true) ∨
  (∃ value length signed minV maxV, mkBitField value length signed minV maxV true = .ok f) ∨
  (∃ v, mkUInt8 v true = .ok f) ∨
  (∃ v, mkUInt16 v true = .ok f) ∨
  (∃ v, mkUInt32 v true = .ok f) ∨
  (∃ v, mkUInt64 v true = .ok f) ∨
  (∃ v, mkSInt8 v true = .ok f) ∨
  (∃ v, mkSInt16 v true = .ok f) ∨
  (∃ v, mkSInt32 v true = .ok f) ∨
  (∃ v, mkSInt64 v true = .ok f) ∨
  (∃ v minL maxL step numMut seed ub, mkRandomBits v minL maxL step numMut seed ub true = .ok f) ∨
  (∃ v minL maxL step numMut seed, mkRandomBytes v minL maxL step numMut seed true = .ok f)

/-- The fuzzable leaves with the two duplicate sources ruled out: a Group
must carry pairwise-distinct candidate renders, and a random span's
realized draw must be collision-free (String, Delimiter, Dynamic and the
BitValue family build duplicate-free catalogues by construction). -/
def IsFuzzableLeafChecked (f : Field) : Prop :=
  (∃ v ms, f = mkString v ms true) ∨
  (∃ v ms, f = mkDelimiter v ms true) ∨
  (∃ key v, f = mkDynamicLeaf key v true) ∨
  (∃ vs, vs ≠ [] ∧ (vs.map bytesToBits).Nodup ∧ f = mkGroup vs true) ∨
  (∃ value length signed minV maxV, mkBitField value length signed minV maxV true = .ok f) ∨
  (∃ v, mkUInt8 v true = .ok f) ∨
  (∃ v, mkUInt16 v true = .ok f) ∨
  (∃ v, mkUInt32 v true = .ok f) ∨
  (∃ v, mkUInt64 v true = .ok f) ∨
  (∃ v, mkSInt8 v true = .ok f) ∨
  (∃ v, mkSInt16 v true = .ok f) ∨
  (∃ v, mkSInt32 v true = .ok f) ∨
  (∃ v, mkSInt64 v true = .ok f) ∨
  (∃ v minL maxL step numMut seed ub,
    mkRandomBits v minL maxL step numMut seed ub true = .ok f ∧ f.catalogue.Nodup) ∨
  (∃ v minL maxL step numMut seed,
    mkRandomBytes v minL maxL step numMut seed true = .ok f ∧ f.catalogue.Nodup)

/-- Modelled from the tests: the expected value the calculated-field tests
recompute from the target leaf after every container mutation — a direct
function of the target's current render (and, for IndexOf, of the enclosing
composite's rendered-fields list, recomputed at full resolution depth). -/
def expectedFromLeaf (fuel : Nat) (root : FNode) (k : CalcKind) (t : String) (len : Nat)
    (leafBits : BitStr) : BitStr :=
  match k with
  | .cloneK => leafBits
  | .sizeK => toBitsBE len (leafBits.length / 8)
  | .sizeInBytesK => toBitsBE len (leafBits.length / 8)
  | .elementCountK => toBitsBE len (if leafBits.length ≠ 0 then 1 else 0)
  | .indexOfK =>
    match findEnclosing t root with
    | none => toBitsBE len 0
    | some parent => toBitsBE len (posOfName t (renderedFields fuel root parent))
  | hk => digestBits hk leafBits

/-- The two-child composite of the calculated-field tests, target leaf
first. -/
def calcAfterContainer (t : String) (f : Field) (c : Nat) (k : CalcKind) (len : Nat) : FNode :=
  .comp none [.value (some t) f c, .calcNode none k t len]

/-- The two-child composite of the calculated-field tests, calculated field
first. -/
def calcBeforeContainer (t : String) (f : Field) (c : Nat) (k : CalcKind) (len : Nat) : FNode :=
  .comp none [.calcNode none k t len, .value (some t) f c]

theorem toBitsBE_length (width value : Nat) : (toBitsBE width value).length = width := by
  simp [toBitsBE]

theorem byteToBits_length (b : Nat) : (byteToBits b).length = 8 := by
  simp [byteToBits]

theorem bytesToBits_length (bs : List Nat) : (bytesToBits bs).length = 8 * bs.length := by
  induction bs with
  | nil => simp [bytesToBits]
  | cons b rest ih =>
    have h : bytesToBits (b :: rest) = byteToBits b ++ bytesToBits rest := by
      simp [bytesToBits]
    rw [h, List.length_append, byteToBits_length, ih, List.length_cons]
    ring

theorem prandBits_length (seed off len : Nat) : (prandBits seed off len).length = len := by
  simp [prandBits]

theorem numMutations_mutate (s : FieldInst) : s.mutate.2.numMutations = s.numMutations := by
  unfold FieldInst.mutate
  split <;> simp [FieldInst.numMutations]

theorem drainAux_spec (f : Field) :
    ∀ fuel c, f.fuzzable = true → c ≤ f.catalogue.length →
      f.catalogue.length - c < fuel →
      drainAux fuel ⟨f, c⟩ = (f.catalogue.drop c, ⟨f, f.catalogue.length⟩) := by
  intro fuel
  induction fuel with
  | zero => intro c _ _ h; omega
  | succ k ih =>
    intro c hf hc hlt
    by_cases hlen : c < f.catalogue.length
    · have hm : (FieldInst.mk f c).mutate = (true, ⟨f, c + 1⟩) := by
        simp [FieldInst.mutate, FieldInst.numMutations, hf, hlen]
      have hr : (FieldInst.mk f (c + 1)).render = f.catalogue.getD c f.defaultValue := by
        simp [FieldInst.render]
      rw [drainAux]
      simp only [hm]
      rw [ih (c + 1) hf (by omega) (by omega)]
      simp only [hr, if_true]
      rw [List.getD_eq_getElem f.catalogue f.defaultValue hlen,
        List.drop_eq_getElem_cons hlen]
    · have hce : c = f.catalogue.length := by omega
      subst hce
      have hm : (FieldInst.mk f f.catalogue.length).mutate =
          (false, ⟨f, f.catalogue.length⟩) := by
        simp [FieldInst.mutate, FieldInst.numMutations, hf]
      rw [drainAux]
      simp [hm]

/-- Draining a fresh fuzzable instance produces exactly the catalogue, in
order, and ends with the cursor at the end of the sequence. -/
theorem drain_fresh (f : Field) (hf : f.fuzzable = true) :
    f.fresh.drain = (f.catalogue, ⟨f, f.catalogue.length⟩) := by
  have h := drainAux_spec f (f.catalogue.length + 1) 0 hf (by omega) (by omega)
  simpa [FieldInst.drain, Field.fresh, FieldInst.numMutations, hf] using h

/-- Draining from any cursor position within a fuzzable catalogue yields the
remaining entries. -/
theorem drain_from (f : Field) (c : Nat) (hf : f.fuzzable = true)
    (hc : c ≤ f.catalogue.length) :
    FieldInst.drain ⟨f, c⟩ = (f.catalogue.drop c, ⟨f, f.catalogue.length⟩) := by
  have h := drainAux_spec f (f.catalogue.length + 1) c hf hc (by omega)
  simpa [FieldInst.drain, FieldInst.numMutations, hf] using h

/-- Draining a non-fuzzable instance yields nothing. -/
theorem drain_not_fuzzable (f : Field) (hf : f.fuzzable = false) :
    f.fresh.drain = ([], f.fresh) := by
  have hm : f.fresh.mutate = (false, f.fresh) := by
    simp [FieldInst.mutate, FieldInst.numMutations, hf, Field.fresh]
  have hn : f.fresh.numMutations = 0 := by
    simp [FieldInst.numMutations, hf, Field.fresh]
  show drainAux (f.fresh.numMutations + 1) f.fresh = ([], f.fresh)
  rw [hn, drainAux]
  simp [hm]

/-- Draining a non-fuzzable instance from any cursor yields nothing. -/
theorem drain_not_fuzzable_from (f : Field) (c : Nat) (hf : f.fuzzable = false) :
    FieldInst.drain ⟨f, c⟩ = ([], ⟨f, c⟩) := by
  have hm : (FieldInst.mk f c).mutate = (false, ⟨f, c⟩) := by
    simp [FieldInst.mutate, FieldInst.numMutations, hf]
  have hn : (FieldInst.mk f c).numMutations = 0 := by
    simp [FieldInst.numMutations, hf]
  show drainAux ((FieldInst.mk f c).numMutations + 1) ⟨f, c⟩ = ([], ⟨f, c⟩)
  rw [hn, drainAux]
  simp [hm]

/-- The full sweep contract follows for any fuzzable leaf whose catalogue is
duplicate-free. -/
theorem sweepProps_of_nodup (f : Field) (hf : f.fuzzable = true)
    (hn : f.catalogue.Nodup) : sweepProps f := by
  have hd := drain_fresh f hf
  refine ⟨?_, ?_, ?_⟩
  · rw [hd]
    simp [FieldInst.numMutations, Field.fresh, hf]
  · rw [hd]
    exact hn
  · rw [hd]
    show (FieldInst.reset ⟨f, f.catalogue.length⟩).drain = _
    show f.fresh.drain = _
    rw [hd]

theorem stringCatalogue_nodup (v : List Nat) (ms : Option Nat) :
    (stringCatalogue v ms).Nodup := by
  unfold stringCatalogue
  cases ms with
  | none => exact List.nodup_dedup _
  | some m => exact List.Nodup.filter _ (List.nodup_dedup _)

theorem dynamicCatalogue_nodup (v : List Nat) : (dynamicCatalogue v).Nodup :=
  List.nodup_dedup _

theorem bitFieldCatalogue_nodup (length : Nat) (signed : Bool) (minV maxV : Option Int) :
    (bitFieldCatalogue length signed minV maxV).Nodup :=
  List.nodup_dedup _

theorem mkBitField_ok (value : Int) (length : Nat) (signed : Bool) (minV maxV : Option Int)
    (fz : Bool) (f : Field) (h : mkBitField value length signed minV maxV fz = .ok f) :
    f = ⟨encodeInt length value, bitFieldCatalogue length signed minV maxV, fz⟩ := by
  unfold mkBitField at h
  split_ifs at h <;> simp_all

theorem mkRandomSpan_ok (unit : Nat) (v : List Nat) (minL maxL : Int) (step : Option Int)
    (numMut : Option Nat) (seed ub : Nat) (fz : Bool) (f : Field)
    (h : mkRandomSpan unit v minL maxL step numMut seed ub fz = .ok f) :
    f = ⟨(bytesToBits v).take ((bytesToBits v).length - ub),
        randomSpanCatalogue unit seed minL.toNat maxL.toNat (step.map Int.toNat) numMut,
        fz⟩ ∧
      0 ≤ minL ∧ 0 < maxL ∧ minL ≤ maxL ∧ ∀ s, step = some s → 0 ≤ s := by
  unfold mkRandomSpan at h
  split_ifs at h with h1 h2 h3 h4 h5
  · simp only [Except.ok.injEq] at h
    refine ⟨h.symm, by omega, by omega, by omega, ?_⟩
    intro s hs
    subst hs
    simp only [decide_eq_true_eq] at h5
    omega

/-- C1 (counterexample): the claim as stated — every fuzzable leaf's full
sweep yields pairwise-distinct outputs — fails at two explicit
constructions: a Group with a duplicated candidate value repeats that
candidate (the spec fixes the Group sequence to the candidate list in
order), and a one-bit random span forced to three mutations repeats a
one-bit output by pigeonhole. -/
theorem mutation_sweep_as_stated_cex :
    IsFuzzableLeaf (mkGroup [[97], [97]] true) ∧
      ¬ sweepProps (mkGroup [[97], [97]] true) ∧
      IsFuzzableLeaf (okField (mkRandomBits [] 1 1 none (some 3) 0 0 true)) ∧
      ¬ sweepProps (okField (mkRandomBits [] 1 1 none (some 3) 0 0 true)) := by
  refine ⟨?_, ?_, ?_, ?_⟩
  · iterate 3 right
    left
    exact ⟨[[97], [97]], by simp, rfl⟩
  · intro hs
    exact absurd hs.2.1 (by decide)
  · iterate 13 right
    left
    exact ⟨[], 1, 1, none, some 3, 0, 0, rfl⟩
  · intro hs
    exact absurd hs.2.1 (by decide)

/-- Every leaf the specification lists as fuzzable carries the fuzzable
flag. -/
theorem isFuzzableLeaf_fuzzable (f : Field) (h : IsFuzzableLeaf f) :
    f.fuzzable = true := by
  rcases h with ⟨v, ms, rfl⟩ | ⟨v, ms, rfl⟩ | ⟨k, v, rfl⟩ | ⟨vs, -, rfl⟩ |
    ⟨value, len, sg, mn, mx, hok⟩ | ⟨v, hok⟩ | ⟨v, hok⟩ | ⟨v, hok⟩ | ⟨v, hok⟩ |
    ⟨v, hok⟩ | ⟨v, hok⟩ | ⟨v, hok⟩ | ⟨v, hok⟩ |
    ⟨v, minL, maxL, step, numMut, seed, ub, hok⟩ |
    ⟨v, minL, maxL, step, numMut, seed, hok⟩
  · rfl
  · rfl
  · rfl
  · rfl
  · rw [mkBitField_ok value len sg mn mx true f hok]
  · rw [mkBitField_ok v 8 false none none true f hok]
  · rw [mkBitField_ok v 16 false none none true f hok]
  · rw [mkBitField_ok v 32 false none none true f hok]
  · rw [mkBitField_ok v 64 false none none true f hok]
  · rw [mkBitField_ok v 8 true none none true f hok]
  · rw [mkBitField_ok v 16 true none none true f hok]
  · rw [mkBitField_ok v 32 true none none true f hok]
  · rw [mkBitField_ok v 64 true none none true f hok]
  · obtain ⟨hf, -⟩ := mkRandomSpan_ok 1 v minL maxL step numMut seed ub true f hok
    rw [hf]
  · obtain ⟨hf, -⟩ := mkRandomSpan_ok 8 v minL maxL step numMut seed 0 true f hok
    rw [hf]

/-- Any fuzzable field drains to exactly `num_mutations()` outputs and
reproduces the identical drain after `reset()`, with no condition on its
catalogue. -/
theorem drain_count_reset_of_fuzzable (f : Field) (hf : f.fuzzable = true) :
    f.fresh.drain.1.length = f.fresh.numMutations ∧
    f.fresh.drain.2.reset.drain = f.fresh.drain := by
  have hd := drain_fresh f hf
  constructor
  · rw [hd]
    simp [FieldInst.numMutations, Field.fresh, hf]
  · rw [hd]
    show (FieldInst.reset ⟨f, f.catalogue.length⟩).drain = _
    show f.fresh.drain = _
    rw [hd]

/-- A fuzzable field with a duplicate-free catalogue drains to pairwise
distinct outputs. -/
theorem drain_nodup_of (f : Field) (hf : f.fuzzable = true)
    (hn : f.catalogue.Nodup) : f.fresh.drain.1.Nodup := by
  rw [drain_fresh f hf]
  exact hn

/-- C1 (amended): for every fuzzable leaf field (String, Delimiter,
Dynamic, RandomBits, RandomBytes, Group, BitField and the sized integer
variants), draining with `mutate()` until it first returns false yields
exactly `num_mutations()` successful calls and the identical output
sequence is produced again after `reset()` — unconditionally, also for a
Group with duplicated candidates or a colliding random draw; the rendered
outputs over the sweep are pairwise distinct provided the Group candidate
renders are pairwise distinct and the random span realized draw is
collision-free, the two cases the counterexample forces; a second instance
built from identical construction parameters is the identical field value
and so trivially repeats the sequence. -/
theorem mutation_sweep_amended (f : Field) :
    (IsFuzzableLeaf f →
      f.fresh.drain.1.length = f.fresh.numMutations ∧
      f.fresh.drain.2.reset.drain = f.fresh.drain) ∧
    (IsFuzzableLeafChecked f → f.fresh.drain.1.Nodup) := by
  constructor
  · intro h
    exact drain_count_reset_of_fuzzable f (isFuzzableLeaf_fuzzable f h)
  · intro h
    rcases h with ⟨v, ms, rfl⟩ | ⟨v, ms, rfl⟩ | ⟨k, v, rfl⟩ | ⟨vs, -, hnd, rfl⟩ |
      ⟨value, len, sg, mn, mx, hok⟩ | ⟨v, hok⟩ | ⟨v, hok⟩ | ⟨v, hok⟩ | ⟨v, hok⟩ |
      ⟨v, hok⟩ | ⟨v, hok⟩ | ⟨v, hok⟩ | ⟨v, hok⟩ |
      ⟨v, minL, maxL, step, numMut, seed, ub, hok, hnd⟩ |
      ⟨v, minL, maxL, step, numMut, seed, hok, hnd⟩
    · exact drain_nodup_of _ rfl (stringCatalogue_nodup v ms)
    · exact drain_nodup_of _ rfl (stringCatalogue_nodup v ms)
    · exact drain_nodup_of _ rfl (dynamicCatalogue_nodup v)
    · exact drain_nodup_of _ rfl hnd
    · rw [mkBitField_ok value len sg mn mx true f hok]
      exact drain_nodup_of _ rfl (bitFieldCatalogue_nodup len sg mn mx)
    · rw [mkBitField_ok v 8 false none none true f hok]
      exact drain_nodup_of _ rfl (bitFieldCatalogue_nodup 8 false none none)
    · rw [mkBitField_ok v 16 false none none true f hok]
      exact drain_nodup_of _ rfl (bitFieldCatalogue_nodup 16 false none none)
    · rw [mkBitField_ok v 32 false none none true f hok]
      exact drain_nodup_of _ rfl (bitFieldCatalogue_nodup 32 false none none)
    · rw [mkBitField_ok v 64 false none none true f hok]
      exact drain_nodup_of _ rfl (bitFieldCatalogue_nodup 64 false none none)
    · rw [mkBitField_ok v 8 true none none true f hok]
      exact drain_nodup_of _ rfl (bitFieldCatalogue_nodup 8 true none none)
    · rw [mkBitField_ok v 16 true none none true f hok]
      exact drain_nodup_of _ rfl (bitFieldCatalogue_nodup 16 true none none)
    · rw [mkBitField_ok v 32 true none none true f hok]
      exact drain_nodup_of _ rfl (bitFieldCatalogue_nodup 32 true none none)
    · rw [mkBitField_ok v 64 true none none true f hok]
      exact drain_nodup_of _ rfl (bitFieldCatalogue_nodup 64 true none none)
    · obtain ⟨hf, -⟩ := mkRandomSpan_ok 1 v minL maxL step numMut seed ub true f hok
      subst hf
      exact drain_nodup_of _ rfl hnd
    · obtain ⟨hf, -⟩ := mkRandomSpan_ok 8 v minL maxL step numMut seed 0 true f hok
      subst hf
      exact drain_nodup_of _ rfl hnd

/-- C1 (witness): the unconditional count and reset conjuncts evaluated at
the duplicate-candidate Group the counterexample uses, and the
distinctness conjunct at the String leaf the tests build. -/
theorem mutation_sweep_amended_witness :
    ((mkGroup [[97], [97]] true).fresh.drain.1.length
        = (mkGroup [[97], [97]] true).fresh.numMutations ∧
      (mkGroup [[97], [97]] true).fresh.drain.2.reset.drain
        = (mkGroup [[97], [97]] true).fresh.drain) ∧
    (mkString [107, 105, 116, 116, 121] none true).fresh.drain.1.Nodup :=
  ⟨(mutation_sweep_amended (mkGroup [[97], [97]] true)).1
      (Or.inr (Or.inr (Or.inr (Or.inl ⟨[[97], [97]], by simp, rfl⟩)))),
   (mutation_sweep_amended (mkString [107, 105, 116, 116, 121] none true)).2
      (Or.inl ⟨[107, 105, 116, 116, 121], none, rfl⟩)⟩

/-- C6: for every field and every `k ≥ 0`, `skip(k)` on a fresh instance
returns `min(k, num_mutations())`, draining with `mutate()` afterwards
yields exactly `num_mutations() - min(k, num_mutations())` successful
calls, and repeating the same skip-then-drain after `reset()` gives the
same returned skip count and the same number of successes. -/
theorem skip_then_drain (f : Field) (k : Nat) :
    (f.fresh.skip k).1 = min k f.fresh.numMutations ∧
    (f.fresh.skip k).2.drain.1.length
      = f.fresh.numMutations - min k f.fresh.numMutations ∧
    ((f.fresh.skip k).2.drain.2.reset.skip k).1 = min k f.fresh.numMutations ∧
    ((f.fresh.skip k).2.drain.2.reset.skip k).2.drain.1.length
      = f.fresh.numMutations - min k f.fresh.numMutations := by
  by_cases hf : f.fuzzable = true
  · have hnum : f.fresh.numMutations = f.catalogue.length := by
      simp [FieldInst.numMutations, Field.fresh, hf]
    have hskip : f.fresh.skip k = (min k f.catalogue.length, ⟨f, min k f.catalogue.length⟩) := by
      simp [FieldInst.skip, FieldInst.numMutations, Field.fresh, hf]
    have hdrain := drain_from f (min k f.catalogue.length) hf (min_le_right _ _)
    have h2 : (f.fresh.skip k).2.drain =
        (f.catalogue.drop (min k f.catalogue.length), ⟨f, f.catalogue.length⟩) := by
      rw [hskip]
      exact hdrain
    have h3 : (f.fresh.skip k).2.drain.2.reset = f.fresh := by
      rw [h2]
      rfl
    refine ⟨by rw [hskip, hnum], ?_, ?_, ?_⟩
    · rw [h2, hnum]
      simp
    · rw [h3, hskip, hnum]
    · rw [h3, h2, hnum]
      simp
  · have hf2 : f.fuzzable = false := by
      simpa using hf
    have hnum : f.fresh.numMutations = 0 := by
      simp [FieldInst.numMutations, Field.fresh, hf2]
    have hskip : f.fresh.skip k = (0, ⟨f, 0⟩) := by
      simp [FieldInst.skip, FieldInst.numMutations, Field.fresh, hf2]
    have h2 : (f.fresh.skip k).2.drain = ([], ⟨f, 0⟩) := by
      rw [hskip]
      exact drain_not_fuzzable_from f 0 hf2
    have h3 : (f.fresh.skip k).2.drain.2.reset = f.fresh := by
      rw [h2]
      rfl
    refine ⟨by rw [hskip, hnum]; simp, by rw [h2, hnum]; simp, ?_, ?_⟩
    · rw [h3, hskip, hnum]
      simp
    · rw [h3, h2, hnum]
      simp

/-- C6 (witness): the skip contract evaluated at the test Group with five
candidates, skipping two. -/
theorem skip_then_drain_witness :
    ((mkGroup [[103], [104], [105], [106], [107]] true).fresh.skip 2).1 =
      min 2 (mkGroup [[103], [104], [105], [106], [107]] true).fresh.numMutations :=
  (skip_then_drain (mkGroup [[103], [104], [105], [106], [107]] true) 2).1

/-- The error conditions of RandomSpan construction, shared by both
variants. -/
theorem mkRandomSpan_isOkE_false (unit : Nat) (v : List Nat) (minL maxL : Int)
    (step : Option Int) (numMut : Option Nat) (seed ub : Nat) (fz : Bool) :
    isOkE (mkRandomSpan unit v minL maxL step numMut seed ub fz) = false ↔
      minL < 0 ∨ maxL < 0 ∨ maxL = 0 ∨ minL > maxL ∨ ∃ s, step = some s ∧ s < 0 := by
  cases step with
  | none =>
    unfold mkRandomSpan isOkE
    split_ifs with h1 h2 h3 h4 <;> simp_all <;> omega
  | some s =>
    unfold mkRandomSpan isOkE
    split_ifs with h1 h2 h3 h4 h5 <;> simp_all <;> omega

/-- C9: constructing a RandomSpanField (RandomBits or RandomBytes) fails
with a configuration error exactly when `min_length < 0`, or
`max_length < 0`, or `max_length == 0`, or `min_length > max_length`, or a
provided step is negative; construction violating none of these
succeeds. -/
theorem randomSpan_construction_validation (v : List Nat) (minL maxL : Int)
    (step : Option Int) (numMut : Option Nat) (seed ub : Nat) (fz : Bool) :
    (isOkE (mkRandomBits v minL maxL step numMut seed ub fz) = false ↔
      minL < 0 ∨ maxL < 0 ∨ maxL = 0 ∨ minL > maxL ∨ ∃ s, step = some s ∧ s < 0) ∧
    (isOkE (mkRandomBytes v minL maxL step numMut seed fz) = false ↔
      minL < 0 ∨ maxL < 0 ∨ maxL = 0 ∨ minL > maxL ∨ ∃ s, step = some s ∧ s < 0) :=
  ⟨mkRandomSpan_isOkE_false 1 v minL maxL step numMut seed ub fz,
   mkRandomSpan_isOkE_false 8 v minL maxL step numMut seed 0 fz⟩

/-- C9 (witness): a negative `min_length` is rejected and the test's valid
parameters are accepted. -/
theorem randomSpan_construction_validation_witness :
    isOkE (mkRandomBits [107] (-1) 4 none none 0 0 true) = false ∧
      isOkE (mkRandomBytes [107] 5 10 none none 0 true) = true := by
  constructor
  · exact (randomSpan_construction_validation [107] (-1) 4 none none 0 0 true).1.mpr
      (Or.inl (by omega))
  · have h := (randomSpan_construction_validation [107] 5 10 none none 0 0 true).2
    have hnot : ¬((5 : Int) < 0 ∨ (10 : Int) < 0 ∨ (10 : Int) = 0 ∨ (5 : Int) > 10 ∨
        ∃ s, (none : Option Int) = some s ∧ s < 0) := by
      rintro (h | h | h | h | ⟨s, hs, -⟩) <;> first | omega | exact Option.noConfusion hs
    rcases hb : isOkE (mkRandomBytes [107] 5 10 none none 0 true) with _ | _
    · exact absurd (h.mp hb) hnot
    · rfl

/-- C7: for any SessionField (Dynamic), fuzzable or not: render equals the
default value before session data is installed; after installing a mapping
containing its key, render equals that mapping's value for the key;
installing a mapping without the key leaves render at its previous value;
and reset reverts render to the default value regardless of installed
session data. -/
theorem session_field_render (f : DynField) (s : DynState)
    (m mmiss : List (String × List Nat)) (v : List Nat) :
    dynRender f f.freshDyn = bytesToBits f.defaultValue ∧
    (dynLookup f.key m = some v →
      dynRender f (setSessionData f s m) = bytesToBits v) ∧
    (dynLookup f.key mmiss = none →
      dynRender f (setSessionData f s mmiss) = dynRender f s) ∧
    dynRender f (dynReset f s) = bytesToBits f.defaultValue := by
  refine ⟨?_, ?_, ?_, ?_⟩
  · simp [dynRender, DynField.freshDyn, FieldInst.render, mkDynamicLeaf]
  · intro h
    simp [setSessionData, h, dynRender]
  · intro h
    simp [setSessionData, h]
  · simp [dynRender, dynReset, FieldInst.render, mkDynamicLeaf]

/-- C7 (witness): the session-data scenarios of the tests, evaluated at the
key `exists` with default `kitty`-like bytes. -/
theorem session_field_render_witness :
    dynRender ⟨"exists", [1, 2], true⟩
        (setSessionData ⟨"exists", [1, 2], true⟩ ⟨none, 0⟩ [("exists", [9])]) =
      bytesToBits [9] ∧
    dynRender ⟨"exists", [1, 2], true⟩
        (setSessionData ⟨"exists", [1, 2], true⟩ ⟨none, 0⟩ [("other", [9])]) =
      dynRender ⟨"exists", [1, 2], true⟩ ⟨none, 0⟩ :=
  ⟨(session_field_render ⟨"exists", [1, 2], true⟩ ⟨none, 0⟩ [("exists", [9])]
      [("other", [9])] [9]).2.1 rfl,
   (session_field_render ⟨"exists", [1, 2], true⟩ ⟨none, 0⟩ [("exists", [9])]
      [("other", [9])] [9]).2.2.1 rfl⟩

/-- C5: for any RandomSpanField (RandomBits or RandomBytes) constructed
with a positive step, the number of mutations equals
`(max_length - min_length) / step` (integer division), the `i`-th mutation
renders at exactly `min_length + i * step` units (so the first renders at
`min_length` and each subsequent one is `step` units larger), and the same
sweep is produced again after `reset()`. -/
theorem stepped_random_span (v : List Nat) (minL maxL st : Int) (numMut : Option Nat)
    (seed ub : Nat) (fb fy : Field)
    (hb : mkRandomBits v minL maxL (some st) numMut seed ub true = .ok fb)
    (hy : mkRandomBytes v minL maxL (some st) numMut seed true = .ok fy)
    (hst : 0 < st) :
    fb.fresh.numMutations = (maxL.toNat - minL.toNat) / st.toNat ∧
    fy.fresh.numMutations = (maxL.toNat - minL.toNat) / st.toNat ∧
    fb.fresh.drain.1.map List.length
      = (List.range ((maxL.toNat - minL.toNat) / st.toNat)).map
          (fun i => minL.toNat + i * st.toNat) ∧
    fy.fresh.drain.1.map List.length
      = (List.range ((maxL.toNat - minL.toNat) / st.toNat)).map
          (fun i => 8 * (minL.toNat + i * st.toNat)) ∧
    fb.fresh.drain.2.reset.drain = fb.fresh.drain ∧
    fy.fresh.drain.2.reset.drain = fy.fresh.drain := by
  obtain ⟨hbf, -⟩ := mkRandomSpan_ok 1 v minL maxL (some st) numMut seed ub true fb hb
  obtain ⟨hyf, -⟩ := mkRandomSpan_ok 8 v minL maxL (some st) numMut seed 0 true fy hy
  subst hbf hyf
  have hcatb : randomSpanCatalogue 1 seed minL.toNat maxL.toNat ((some st).map Int.toNat)
      numMut = (List.range ((maxL.toNat - minL.toNat) / st.toNat)).map
        (fun i => prandBits seed (i * 17) (1 * (minL.toNat + i * st.toNat))) := rfl
  have hcaty : randomSpanCatalogue 8 seed minL.toNat maxL.toNat ((some st).map Int.toNat)
      numMut = (List.range ((maxL.toNat - minL.toNat) / st.toNat)).map
        (fun i => prandBits seed (i * 17) (8 * (minL.toNat + i * st.toNat))) := rfl
  have hcatb2 : randomSpanCatalogue 1 seed minL.toNat maxL.toNat (some st.toNat)
      numMut = (List.range ((maxL.toNat - minL.toNat) / st.toNat)).map
        (fun i => prandBits seed (i * 17) (1 * (minL.toNat + i * st.toNat))) := rfl
  have hcaty2 : randomSpanCatalogue 8 seed minL.toNat maxL.toNat (some st.toNat)
      numMut = (List.range ((maxL.toNat - minL.toNat) / st.toNat)).map
        (fun i => prandBits seed (i * 17) (8 * (minL.toNat + i * st.toNat))) := rfl
  have hdb := drain_fresh _ (rfl :
    (Field.mk ((bytesToBits v).take ((bytesToBits v).length - ub))
      (randomSpanCatalogue 1 seed minL.toNat maxL.toNat ((some st).map Int.toNat) numMut)
      true).fuzzable = true)
  have hdy := drain_fresh _ (rfl :
    (Field.mk ((bytesToBits v).take ((bytesToBits v).length - 0))
      (randomSpanCatalogue 8 seed minL.toNat maxL.toNat ((some st).map Int.toNat) numMut)
      true).fuzzable = true)
  refine ⟨?_, ?_, ?_, ?_, ?_, ?_⟩
  · simp [FieldInst.numMutations, Field.fresh, hcatb2]
  · simp [FieldInst.numMutations, Field.fresh, hcaty2]
  · rw [hdb]
    show (randomSpanCatalogue 1 seed minL.toNat maxL.toNat ((some st).map Int.toNat)
      numMut).map List.length = _
    rw [hcatb, List.map_map]
    refine List.map_congr_left ?_
    intro i _
    simp [Function.comp, prandBits_length]
  · rw [hdy]
    show (randomSpanCatalogue 8 seed minL.toNat maxL.toNat ((some st).map Int.toNat)
      numMut).map List.length = _
    rw [hcaty, List.map_map]
    refine List.map_congr_left ?_
    intro i _
    simp [Function.comp, prandBits_length]
  · rw [hdb]
    show (Field.fresh _).drain = _
    rw [hdb]
  · rw [hdy]
    show (Field.fresh _).drain = _
    rw [hdy]

/-- C5 (witness): the stepped contract evaluated at the test parameters
`min_length=10, max_length=100, step=3`. -/
theorem stepped_random_span_witness :
    (okField (mkRandomBits [107] 10 100 (some 3) none 5 3 true)).fresh.numMutations = 30 :=
  (stepped_random_span [107] 10 100 3 none 5 3
    (okField (mkRandomBits [107] 10 100 (some 3) none 5 3 true))
    (okField (mkRandomBytes [107] 10 100 (some 3) none 5 true))
    rfl rfl (by omega)).1

/-- A value leaf renders through its own field state at any non-zero
fuel. -/
theorem renderNode_value (fuel : Nat) (root : FNode) (nm : Option String) (f : Field)
    (c : Nat) : renderNode (fuel + 1) root (.value nm f c) = FieldInst.render ⟨f, c⟩ := rfl

/-- C10: for every leaf field, in every mutation state, the rendered-fields
query returns the one-element list containing the leaf itself exactly when
its current render has non-zero bit length (including the default,
pre-mutation state with cursor 0) and the empty list exactly when the
current render is empty; mutation keeps a leaf a leaf, so this holds after
every mutation step. -/
theorem leaf_rendered_fields (fuel : Nat) (root : FNode) (nm : Option String)
    (f : Field) (c : Nat) :
    (renderedFields (fuel + 1) root (.value nm f c) = [.value nm f c] ↔
      (FieldInst.render ⟨f, c⟩).length ≠ 0) ∧
    (renderedFields (fuel + 1) root (.value nm f c) = [] ↔
      (FieldInst.render ⟨f, c⟩).length = 0) ∧
    (mutateNode (.value nm f c)).2 = .value nm f (FieldInst.mutate ⟨f, c⟩).2.cursor := by
  by_cases h : (FieldInst.render ⟨f, c⟩).length = 0
  · simp [renderedFields, evalNode, h, mutateNode]
  · simp [renderedFields, evalNode, h, mutateNode]

mutual

theorem hash_mutateNode : ∀ n : FNode, identityHash (mutateNode n).2 = identityHash n
  | .value nm f c => by simp [mutateNode, identityHash]
  | .calcNode nm k t len => by simp [mutateNode]
  | .comp nm cs => by
    have h := hash_mutateList cs
    simp [mutateNode, identityHash, h]

theorem hash_mutateList : ∀ cs : List FNode,
    identityHashList (mutateList cs).2 = identityHashList cs
  | [] => by simp [mutateList]
  | c :: rest => by
    have hc := hash_mutateNode c
    have hr := hash_mutateList rest
    by_cases hb : (mutateNode c).1 <;>
      simp [mutateList, hb, identityHashList, hc, hr]

end

mutual

theorem hash_resetNode : ∀ n : FNode, identityHash (resetNode n) = identityHash n
  | .value nm f c => by simp [resetNode, identityHash]
  | .calcNode nm k t len => by simp [resetNode]
  | .comp nm cs => by
    have h := hash_resetList cs
    simp [resetNode, identityHash, h]

theorem hash_resetList : ∀ cs : List FNode,
    identityHashList (resetList cs) = identityHashList cs
  | [] => by simp [resetList]
  | c :: rest => by
    have hc := hash_resetNode c
    have hr := hash_resetList rest
    simp [resetList, identityHashList, hc, hr]

end

theorem hash_skipNode (k : Nat) (n : FNode) :
    identityHash (skipNode k n) = identityHash n := by
  induction k generalizing n with
  | zero => rfl
  | succ j ih =>
    show identityHash (if (mutateNode n).1 then skipNode j (mutateNode n).2 else n) = _
    by_cases hb : (mutateNode n).1
    · rw [if_pos hb, ih, hash_mutateNode]
    · rw [if_neg hb]

/-- The identity hash is untouched by any sequence of state-changing
operations. -/
theorem hash_applyOps (ops : List FOp) (n : FNode) :
    identityHash (applyOps ops n) = identityHash n := by
  induction ops generalizing n with
  | nil => rfl
  | cons op rest ih =>
    show identityHash (applyOps rest (applyOp op n)) = _
    rw [ih]
    cases op with
    | mutateOp => exact hash_mutateNode n
    | resetOp => exact hash_resetNode n
    | skipOp k => exact hash_skipNode k n

/-- C8: for every field, the identity hash is unchanged by any sequence of
`mutate()`, `skip()` and `reset()` calls (`render()` is pure and returns the
node unchanged), and two instances whose state-erased configurations agree
— in particular two independently constructed instances with identical
construction parameters — have equal identity hashes. -/
theorem identity_hash_stable (ops : List FOp) (n m : FNode)
    (h : eraseState n = eraseState m) :
    identityHash (applyOps ops n) = identityHash n ∧ identityHash n = identityHash m := by
  refine ⟨hash_applyOps ops n, ?_⟩
  have hn := hash_resetNode n
  have hm := hash_resetNode m
  calc identityHash n = identityHash (resetNode n) := hn.symm
    _ = identityHash (resetNode m) := by
      show identityHash (eraseState n) = identityHash (eraseState m)
      rw [h]
    _ = identityHash m := hm

/-- C8 (witness): the hash contract evaluated at a String leaf mutated,
reset and skipped, against a second instance differing only in mutation
state. -/
theorem identity_hash_stable_witness :
    identityHash (applyOps [FOp.mutateOp, FOp.resetOp, FOp.skipOp 2]
        (.value none (mkString [1] none true) 0)) =
      identityHash (.value none (mkString [1] none true) 0) ∧
    identityHash (.value none (mkString [1] none true) 0) =
      identityHash (.value none (mkString [1] none true) 3) :=
  identity_hash_stable [FOp.mutateOp, FOp.resetOp, FOp.skipOp 2]
    (.value none (mkString [1] none true) 0)
    (.value none (mkString [1] none true) 3) rfl

/-- Name search skips a prefix in which the name does not occur. -/
theorem findInList_append (t : String) (l1 l2 : List FNode)
    (h : ∀ n ∈ l1, findByName t n = none) :
    findInList t (l1 ++ l2) = findInList t l2 := by
  induction l1 with
  | nil => simp
  | cons c rest ih =>
    have hc := h c (by simp)
    show (match findByName t c with
      | some r => some r
      | none => findInList t (rest ++ l2)) = _
    rw [hc, ih (fun n hn => h n (by simp [hn]))]

/-- The index of the named node skips a prefix in which the name does not
occur. -/
theorem posOfName_append (t : String) (l1 l2 : List FNode)
    (h : ∀ n ∈ l1, nodeName n ≠ some t) :
    posOfName t (l1 ++ l2) = l1.length + posOfName t l2 := by
  induction l1 with
  | nil => simp [posOfName]
  | cons c rest ih =>
    have hc := h c (by simp)
    show (if nodeName c = some t then 0 else posOfName t (rest ++ l2) + 1) = _
    rw [if_neg hc, ih (fun n hn => h n (by simp [hn]))]
    simp
    omega

/-- When the name occurs nowhere in the list, the index is the length — the
"would-be append position" sentinel. -/
theorem posOfName_all_missing (t : String) (l : List FNode)
    (h : ∀ n ∈ l, nodeName n ≠ some t) : posOfName t l = l.length := by
  have := posOfName_append t l [] h
  simpa [posOfName] using this

/-- C3: for any ElementCount field whose target name resolves (anywhere in
the enclosing tree, at any depth) to a composite node, `render()` outputs a
fixed-length integer equal to the length of that composite's own
rendered-fields list — the count over its immediate children of those that
render to something, a nested composite counting as exactly one unit
regardless of its internal child count. -/
theorem element_count_render (fuel : Nat) (root : FNode) (cn nm : Option String)
    (t : String) (len : Nat) (cs : List FNode)
    (h : findByName t root = some (.comp nm cs)) :
    renderNode (fuel + 2) root (.calcNode cn .elementCountK t len) =
      toBitsBE len (renderedFields (fuel + 1) root (.comp nm cs)).length ∧
    (renderedFields (fuel + 1) root (.comp nm cs)).length
      = cs.countP (fun c => !(renderedFields fuel root c).isEmpty) ∧
    (renderNode (fuel + 2) root (.calcNode cn .elementCountK t len)).length = len := by
  have h1 : renderNode (fuel + 2) root (.calcNode cn .elementCountK t len)
      = toBitsBE len (renderedFields (fuel + 1) root (.comp nm cs)).length := by
    simp [renderNode, renderedFields, evalNode, h]
  have h2 : (renderedFields (fuel + 1) root (.comp nm cs)).length
      = cs.countP (fun c => !(renderedFields fuel root c).isEmpty) := by
    show (cs.filter (fun c => !(renderedFields fuel root c).isEmpty)).length = _
    exact (List.countP_eq_length_filter _ _).symm
  exact ⟨h1, h2, by rw [h1, toBitsBE_length]⟩

/-- C3 (witness): the nested-composite test tree — the target composite
holds two strings and one inner composite of two strings, so ElementCount
renders 3; queried directly, the inner composite has 2 rendered fields. -/
theorem element_count_render_witness :
    renderNode 4
        (.comp none [.comp (some "dep") [.value none (mkString [97] none true) 0,
          .value none (mkString [98] none true) 0,
          .comp (some "one") [.value none (mkString [99] none true) 0,
            .value none (mkString [100] none true) 0]],
          .calcNode none .elementCountK "dep" 32])
        (.calcNode none .elementCountK "dep" 32) = toBitsBE 32 3 := by
  rw [(element_count_render 2
    (.comp none [.comp (some "dep") [.value none (mkString [97] none true) 0,
      .value none (mkString [98] none true) 0,
      .comp (some "one") [.value none (mkString [99] none true) 0,
        .value none (mkString [100] none true) 0]],
      .calcNode none .elementCountK "dep" 32])
    none (some "dep") "dep" 32
    [.value none (mkString [97] none true) 0,
      .value none (mkString [98] none true) 0,
      .comp (some "one") [.value none (mkString [99] none true) 0,
        .value none (mkString [100] none true) 0]] rfl).1]
  rfl

/-- C4: for any IndexOf field whose target name resolves to a node,
`render()` outputs a fixed-length integer equal to the position of the
target within the rendered-fields list of the target's own enclosing
composite: with every earlier sibling rendered non-empty and the target
rendered non-empty, the value is the number of earlier siblings (position
`i` for a target at position `i` among non-empty siblings); and when the
target is absent from that list because it rendered to zero length, the
value equals the length of that rendered-fields list — the "not found"
sentinel. -/
theorem index_of_render (fuel : Nat) (t : String) (len : Nat) (f : Field) (c : Nat)
    (pre post : List FNode)
    (hpre1 : ∀ n ∈ pre, findByName t n = none)
    (hpre2 : ∀ n ∈ pre, nodeName n ≠ some t) :
    ((∀ n ∈ pre, renderedFields (fuel + 1)
        (.comp none [.calcNode none .indexOfK t len,
          .comp none (pre ++ .value (some t) f c :: post)]) n ≠ []) →
      (FieldInst.render ⟨f, c⟩).length ≠ 0 →
      renderNode (fuel + 3)
        (.comp none [.calcNode none .indexOfK t len,
          .comp none (pre ++ .value (some t) f c :: post)])
        (.calcNode none .indexOfK t len) = toBitsBE len pre.length) ∧
    ((∀ n ∈ post, nodeName n ≠ some t) →
      (FieldInst.render ⟨f, c⟩).length = 0 →
      renderNode (fuel + 3)
        (.comp none [.calcNode none .indexOfK t len,
          .comp none (pre ++ .value (some t) f c :: post)])
        (.calcNode none .indexOfK t len)
        = toBitsBE len (renderedFields (fuel + 2)
            (.comp none [.calcNode none .indexOfK t len,
              .comp none (pre ++ .value (some t) f c :: post)])
            (.comp none (pre ++ .value (some t) f c :: post))).length) := by
  have hinner0 : findInList t (pre ++ FNode.value (some t) f c :: post)
      = some (FNode.value (some t) f c) := by
    rw [findInList_append t pre _ hpre1]
    simp [findInList, findByName]
  have hfind : findByName t
      (.comp none [FNode.calcNode none .indexOfK t len,
        .comp none (pre ++ FNode.value (some t) f c :: post)])
      = some (.value (some t) f c) := by
    show (match findInList t (pre ++ FNode.value (some t) f c :: post) with
      | some r => some r
      | none => (none : Option FNode)) = some (FNode.value (some t) f c)
    rw [hinner0]
  have hanyt : (pre ++ FNode.value (some t) f c :: post).any
      (fun n => nodeName n == some t) = true :=
    List.any_eq_true.mpr ⟨.value (some t) f c, by simp, by simp [nodeName]⟩
  have hencl2 : findEnclosing t (.comp none (pre ++ FNode.value (some t) f c :: post))
      = some (.comp none (pre ++ FNode.value (some t) f c :: post)) := by
    show (if ((pre ++ FNode.value (some t) f c :: post).any
        (fun n => nodeName n == some t)) = true
      then some (FNode.comp none (pre ++ FNode.value (some t) f c :: post))
      else findEnclosingIn t (pre ++ FNode.value (some t) f c :: post))
      = some (FNode.comp none (pre ++ FNode.value (some t) f c :: post))
    rw [if_pos hanyt]
  have hencl : findEnclosing t
      (.comp none [FNode.calcNode none .indexOfK t len,
        .comp none (pre ++ FNode.value (some t) f c :: post)])
      = some (.comp none (pre ++ FNode.value (some t) f c :: post)) := by
    show (match findEnclosing t (FNode.comp none (pre ++ FNode.value (some t) f c :: post)) with
      | some r => some r
      | none => (none : Option FNode))
      = some (FNode.comp none (pre ++ FNode.value (some t) f c :: post))
    rw [hencl2]
  have hrender : renderNode (fuel + 3)
      (.comp none [FNode.calcNode none .indexOfK t len,
        .comp none (pre ++ FNode.value (some t) f c :: post)])
      (.calcNode none .indexOfK t len)
      = toBitsBE len (posOfName t (renderedFields (fuel + 2)
          (.comp none [FNode.calcNode none .indexOfK t len,
            .comp none (pre ++ FNode.value (some t) f c :: post)])
          (.comp none (pre ++ FNode.value (some t) f c :: post)))) := by
    simp [renderNode, renderedFields, evalNode, hfind, hencl]
  have hrf : renderedFields (fuel + 2)
      (.comp none [FNode.calcNode none .indexOfK t len,
        .comp none (pre ++ FNode.value (some t) f c :: post)])
      (.comp none (pre ++ FNode.value (some t) f c :: post))
      = (pre ++ FNode.value (some t) f c :: post).filter
          (fun n => !(renderedFields (fuel + 1)
            (.comp none [FNode.calcNode none .indexOfK t len,
              .comp none (pre ++ FNode.value (some t) f c :: post)]) n).isEmpty) := rfl
  constructor
  · intro hpre3 htgt
    have hfpre : pre.filter (fun n => !(renderedFields (fuel + 1)
        (.comp none [FNode.calcNode none .indexOfK t len,
          .comp none (pre ++ FNode.value (some t) f c :: post)]) n).isEmpty) = pre := by
      refine List.filter_eq_self.mpr ?_
      intro n hn
      have := hpre3 n hn
      simpa [List.isEmpty_iff] using this
    have htk : (!(renderedFields (fuel + 1)
        (.comp none [FNode.calcNode none .indexOfK t len,
          .comp none (pre ++ FNode.value (some t) f c :: post)])
        (FNode.value (some t) f c)).isEmpty) = true := by
      simp [renderedFields, evalNode, htgt]
    rw [hrender, hrf, List.filter_append, hfpre, List.filter_cons]
    rw [if_pos htk]
    rw [posOfName_append t pre _ hpre2]
    have h0 : ∀ l : List FNode, posOfName t (FNode.value (some t) f c :: l) = 0 := by
      intro l
      show (if nodeName (FNode.value (some t) f c) = some t then 0
        else posOfName t l + 1) = 0
      rw [if_pos (show nodeName (FNode.value (some t) f c) = some t from rfl)]
    rw [h0]
    simp
  · intro hpost2 htgt0
    rw [hrender, hrf]
    have hall : ∀ n ∈ (pre ++ FNode.value (some t) f c :: post).filter
        (fun n => !(renderedFields (fuel + 1)
          (.comp none [FNode.calcNode none .indexOfK t len,
            .comp none (pre ++ FNode.value (some t) f c :: post)]) n).isEmpty),
        nodeName n ≠ some t := by
      intro n hn
      rw [List.mem_filter] at hn
      obtain ⟨hmem, hp⟩ := hn
      rcases List.mem_append.mp hmem with h | h
      · exact hpre2 n h
      · rcases List.mem_cons.mp h with h | h
        · subst h
          have hz : (renderedFields (fuel + 1)
              (.comp none [FNode.calcNode none .indexOfK t len,
                .comp none (pre ++ FNode.value ((some t)) f c :: post)])
              (.value (some t) f c)) = [] := by
            simp [renderedFields, evalNode, htgt0]
          rw [hz] at hp
          simp at hp
        · exact hpost2 n h
    rw [posOfName_all_missing t _ hall]

/-- C4 (witness): the 20-sibling test scenario at position 10, and the
zero-length-target sentinel scenario with three non-empty siblings after an
empty Static target. -/
theorem index_of_render_witness :
    renderNode 4
        (.comp none [.calcNode none .indexOfK "dep" 32,
          .comp none ((List.range 10).map
              (fun i => FNode.value none (mkString [50 + i] none true) 0) ++
            .value (some "dep") (mkString [99] none true) 0 ::
            (List.range 9).map
              (fun i => FNode.value none (mkString [80 + i] none true) 0))])
        (.calcNode none .indexOfK "dep" 32) = toBitsBE 32 10 ∧
    renderNode 4
        (.comp none [.calcNode none .indexOfK "dep" 32,
          .comp none ([] ++ .value (some "dep") (mkString [] none true) 0 ::
            [FNode.value none (mkString [1] none true) 0,
              FNode.value none (mkString [2] none true) 0,
              FNode.value none (mkString [3] none true) 0])])
        (.calcNode none .indexOfK "dep" 32) = toBitsBE 32 3 := by
  constructor
  · have h := (index_of_render 1 "dep" 32 (mkString [99] none true) 0
      ((List.range 10).map (fun i => FNode.value none (mkString [50 + i] none true) 0))
      ((List.range 9).map (fun i => FNode.value none (mkString [80 + i] none true) 0))
      (by
        intro n hn
        rw [List.mem_map] at hn
        obtain ⟨i, -, rfl⟩ := hn
        rfl)
      (by
        intro n hn
        rw [List.mem_map] at hn
        obtain ⟨i, -, rfl⟩ := hn
        simp [nodeName])).1
      (by
        intro n hn
        rw [List.mem_map] at hn
        obtain ⟨i, -, rfl⟩ := hn
        simp [renderedFields, evalNode, FieldInst.render, mkString, bytesToBits_length])
      (by simp [FieldInst.render, mkString, bytesToBits_length])
    rw [h]
    rfl
  · have h := (index_of_render 1 "dep" 32 (mkString [] none true) 0 []
      [FNode.value none (mkString [1] none true) 0,
        FNode.value none (mkString [2] none true) 0,
        FNode.value none (mkString [3] none true) 0]
      (by simp) (by simp)).2 (by decide) (by decide)
    rw [h]
    rfl
/-- An exhausted or still mutation leaves the leaf state unchanged. -/
theorem mutate_false_fixes (f : Field) (c : Nat) :
    (FieldInst.mutate ⟨f, c⟩).1 = false → (FieldInst.mutate ⟨f, c⟩).2 = ⟨f, c⟩ := by
  unfold FieldInst.mutate
  split <;> simp_all

/-- C2: for every ReferenceField variant (Clone, Size, SizeInBytes,
ElementCount, IndexOf and the digests), placing the calculated field before
or after its named target in the same composite yields the same rendered
value: in both orders the calculated field's render equals the value
derived from the target's current render (for IndexOf, its position in the
enclosing composite's rendered-fields list), in every mutation state of the
target; and a container `mutate()` only advances the target leaf's cursor,
preserving the shape, so this holds initially and after every successful
mutate of the enclosing container. -/
theorem calculated_order_independent (k : CalcKind) (t : String) (f : Field)
    (len c : Nat) :
    renderNode 3 (calcAfterContainer t f c k len) (.calcNode none k t len)
      = expectedFromLeaf 2 (calcAfterContainer t f c k len) k t len
          (FieldInst.render ⟨f, c⟩) ∧
    renderNode 3 (calcBeforeContainer t f c k len) (.calcNode none k t len)
      = expectedFromLeaf 2 (calcBeforeContainer t f c k len) k t len
          (FieldInst.render ⟨f, c⟩) ∧
    mutateNode (calcAfterContainer t f c k len)
      = ((FieldInst.mutate ⟨f, c⟩).1,
          calcAfterContainer t f (FieldInst.mutate ⟨f, c⟩).2.cursor k len) ∧
    mutateNode (calcBeforeContainer t f c k len)
      = ((FieldInst.mutate ⟨f, c⟩).1,
          calcBeforeContainer t f (FieldInst.mutate ⟨f, c⟩).2.cursor k len) := by
  have hfindA : findByName t (calcAfterContainer t f c k len)
      = some (.value (some t) f c) := by
    simp [calcAfterContainer, findByName, findInList]
  have hfindB : findByName t (calcBeforeContainer t f c k len)
      = some (.value (some t) f c) := by
    simp [calcBeforeContainer, findByName, findInList]
  have henclA : findEnclosing t (calcAfterContainer t f c k len)
      = some (calcAfterContainer t f c k len) := by
    simp [calcAfterContainer, findEnclosing, nodeName]
  have henclB : findEnclosing t (calcBeforeContainer t f c k len)
      = some (calcBeforeContainer t f c k len) := by
    simp [calcBeforeContainer, findEnclosing, nodeName]
  have hmutA : mutateNode (calcAfterContainer t f c k len)
      = ((FieldInst.mutate ⟨f, c⟩).1,
          calcAfterContainer t f (FieldInst.mutate ⟨f, c⟩).2.cursor k len) := by
    by_cases hb : (FieldInst.mutate ⟨f, c⟩).1
    · simp [calcAfterContainer, mutateNode, mutateList, hb]
    · have h2 := mutate_false_fixes f c (by simpa using hb)
      simp [calcAfterContainer, mutateNode, mutateList, hb, h2]
  have hmutB : mutateNode (calcBeforeContainer t f c k len)
      = ((FieldInst.mutate ⟨f, c⟩).1,
          calcBeforeContainer t f (FieldInst.mutate ⟨f, c⟩).2.cursor k len) := by
    by_cases hb : (FieldInst.mutate ⟨f, c⟩).1
    · simp [calcBeforeContainer, mutateNode, mutateList, hb]
    · have h2 := mutate_false_fixes f c (by simpa using hb)
      simp [calcBeforeContainer, mutateNode, mutateList, hb, h2]
  refine ⟨?_, ?_, hmutA, hmutB⟩
  · cases k <;>
      simp [renderNode, renderedFields, evalNode, hfindA, henclA, expectedFromLeaf] <;>
      (try (split <;> simp))
  · cases k <;>
      simp [renderNode, renderedFields, evalNode, hfindB, henclB, expectedFromLeaf] <;>
      (try (split <;> simp))

/-- C2 (witness): order independence evaluated for Size at the test target
value, in both orders, after one container mutation. -/
theorem calculated_order_independent_witness :
    renderNode 3 (calcAfterContainer "dep" (mkString [104, 105] none true) 1
        .sizeK 32) (.calcNode none .sizeK "dep" 32)
      = expectedFromLeaf 2 (calcAfterContainer "dep" (mkString [104, 105] none true) 1
          .sizeK 32) .sizeK "dep" 32
          (FieldInst.render ⟨mkString [104, 105] none true, 1⟩) ∧
    renderNode 3 (calcBeforeContainer "dep" (mkString [104, 105] none true) 1
        .sizeK 32) (.calcNode none .sizeK "dep" 32)
      = expectedFromLeaf 2 (calcBeforeContainer "dep" (mkString [104, 105] none true) 1
          .sizeK 32) .sizeK "dep" 32
          (FieldInst.render ⟨mkString [104, 105] none true, 1⟩) :=
  ⟨(calculated_order_independent .sizeK "dep" (mkString [104, 105] none true) 32 1).1,
   (calculated_order_independent .sizeK "dep" (mkString [104, 105] none true) 32 1).2.1⟩

end Kitty
